import Mathlib

/-!
# The Library of Tables: columns and tables as linked chains

A shallow embedding of `Tables.h`.

* A chain of `Node<T>` objects linked through `pNext` is a `List T`: the head pointer is the
  list, `nullptr` is `[]`, and following `pNext` is taking the tail.  The chain of `Cells<T>`
  objects owned by a `Table<T>` is a `List (Cells T)` in the same way.
* `Cells<T>::size` is an `unsigned int`: a natural number with arithmetic modulo `2 ^ 32`.
  `GetSize()` returns it converted to `int`.
* `Table<T>::size` and all index parameters are `int`: they are integers here.  Signed
  overflow is undefined in C++, the model covers the executions without it.
* An operation that can throw returns an `Outcome`: the state it leaves and the failure, if
  any.  Dereferencing a null pointer is the failure `undefinedBehaviour`; the state reported
  with it is the state before the call and carries no meaning.
* Memory is unbounded: `new` never fails.
-/

namespace Tables

/-- Ways in which an operation can fail. -/
inductive Failure where
  /-- Thrown `std::out_of_range`. -/
  | outOfRange
  /-- Thrown `std::runtime_error("Invalid position")`. -/
  | invalidPosition
  /-- Thrown `std::runtime_error("Column not found")`. -/
  | columnNotFound
  /-- Thrown `std::runtime_error("Failed to add column")`. -/
  | addFailed
  /-- A null pointer is dereferenced. -/
  | undefinedBehaviour
  deriving DecidableEq

/-- State left by a call together with the failure it raised, if any. -/
structure Outcome (σ : Type) where
  state : σ
  failure : Option Failure
  deriving DecidableEq

/-- Number of values of an `unsigned int`. -/
def UINT_RANGE : Nat := 4294967296

/-- Largest value of an `int`. -/
def INT_MAX : Nat := 2147483647

/-- The statement `size++` on an `unsigned int`. -/
def uintInc (n : Nat) : Nat := (n + 1) % UINT_RANGE

/-- The statement `size--` on an `unsigned int`. -/
def uintDec (n : Nat) : Nat := (n + (UINT_RANGE - 1)) % UINT_RANGE

/-- Conversion of an `unsigned int` to `int`. -/
def uintToInt (n : Nat) : Int :=
  if n % UINT_RANGE ≤ INT_MAX then ((n % UINT_RANGE : Nat) : Int)
  else ((n % UINT_RANGE : Nat) : Int) - (UINT_RANGE : Int)

/-! ## Cells: a column -/

/-- A column `Cells<T>`: the chain of nodes starting at `head`, the name and the count. -/
structure Cells (T : Type) where
  head : List T
  name : String
  size : Nat
  deriving DecidableEq

variable {T : Type}

/-- Constructor `Cells(std::string name, Cells<T>* pNext = nullptr)`. -/
def Cells.new (name : String) : Cells T := ⟨[], name, 0⟩

/-- Method `Cells<T>::SetName`. -/
def Cells.SetName (c : Cells T) (name : String) : Cells T := { c with name := name }

/-- Method `Cells<T>::GetSize`: the count converted to `int`. -/
def Cells.GetSize (c : Cells T) : Int := uintToInt c.size

/-- Method `Cells<T>::GetName`. -/
def Cells.GetName (c : Cells T) : String := c.name

/-- Loop of `PushBack` on a non-empty chain: walk while `cur->pNext != nullptr`, then link a
new node after `cur`.  On the empty chain the new node becomes the head. -/
def linkAtEnd (data : T) : List T → List T
  | [] => [data]
  | x :: rest => x :: linkAtEnd data rest

/-- Method `Cells<T>::PushBack`. -/
def Cells.PushBack (c : Cells T) (data : T) : Cells T :=
  match c.head with
  | [] => { c with head := [data], size := uintInc c.size }
  | x :: rest => { c with head := linkAtEnd data (x :: rest), size := uintInc c.size }

/-- Method `Cells<T>::PushHead`. -/
def Cells.PushHead (c : Cells T) (data : T) : Cells T :=
  match c.head with
  | [] => { c with head := [data], size := uintInc c.size }
  | x :: rest => { c with head := data :: x :: rest, size := uintInc c.size }

/-- Body of the `else` branch of `PushIndex`: take `steps` times `cur = cur->pNext` from the
given node, throw `Invalid position` when `cur` is null, otherwise link a new node between
`cur` and its successor. -/
def spliceAfter (data : T) : Nat → List T → Except Failure (List T)
  | 0, [] => .error .invalidPosition
  | _ + 1, [] => .error .undefinedBehaviour
  | 0, x :: rest => .ok (x :: data :: rest)
  | k + 1, x :: rest =>
    match spliceAfter data k rest with
    | .ok chain => .ok (x :: chain)
    | .error f => .error f

/-- Method `Cells<T>::PushIndex`. -/
def Cells.PushIndex (c : Cells T) (index : Int) (data : T) : Outcome (Cells T) :=
  if index < 0 ∨ index > (c.size : Int) then ⟨c, some .outOfRange⟩
  else if index = 0 then ⟨c.PushHead data, none⟩
  else
    match spliceAfter data (index - 1).toNat c.head with
    | .ok chain => ⟨{ c with head := chain, size := uintInc c.size }, none⟩
    | .error f => ⟨c, some f⟩

/-- Loop of `DeleteBack` on a chain of two or more nodes: walk while
`cur->pNext != nullptr`, then `delete cur->pNext; cur->pNext = nullptr`. -/
def cutAfterLast : List T → List T
  | [] => []
  | [x] => [x]
  | x :: y :: rest => x :: cutAfterLast (y :: rest)

/-- Method `Cells<T>::DeleteBack`. -/
def Cells.DeleteBack (c : Cells T) : Cells T :=
  match c.head with
  | [] => c
  | [_] => { c with head := [], size := uintDec c.size }
  | x :: y :: rest => { c with head := cutAfterLast (x :: y :: rest), size := uintDec c.size }

/-- Method `Cells<T>::DeleteHead`. -/
def Cells.DeleteHead (c : Cells T) : Cells T :=
  match c.head with
  | [] => c
  | _ :: rest => { c with head := rest, size := uintDec c.size }

/-- Body of the `else` branch of `DeleteIndex`: take `steps` times `cur = cur->pNext`, then
unlink `temp = cur->pNext` by `cur->pNext = temp->pNext`. -/
def unlinkAfter : Nat → List T → Except Failure (List T)
  | _, [] => .error .undefinedBehaviour
  | 0, [_] => .error .undefinedBehaviour
  | 0, x :: _ :: rest => .ok (x :: rest)
  | k + 1, x :: rest =>
    match unlinkAfter k rest with
    | .ok chain => .ok (x :: chain)
    | .error f => .error f

/-- Method `Cells<T>::DeleteIndex`. -/
def Cells.DeleteIndex (c : Cells T) (index : Int) : Outcome (Cells T) :=
  if index = 0 then ⟨c.DeleteHead, none⟩
  else
    match unlinkAfter (index - 1).toNat c.head with
    | .ok chain => ⟨{ c with head := chain, size := uintDec c.size }, none⟩
    | .error f => ⟨c, some f⟩

/-- Loop of `Clear`: release the head node until the chain is empty. -/
def releaseAll : List T → List T
  | [] => []
  | _ :: rest => releaseAll rest

/-- Method `Cells<T>::Clear`. -/
def Cells.Clear (c : Cells T) : Cells T := { c with head := releaseAll c.head, size := 0 }

/-- Traversal of `operator[]`: take `steps` times `cur = cur->pNext`, then read
`cur->data`. -/
def dataAfter : Nat → List T → Except Failure T
  | _, [] => .error .undefinedBehaviour
  | 0, x :: _ => .ok x
  | k + 1, _ :: rest => dataAfter k rest

/-- Method `Cells<T>::operator[]`. -/
def Cells.subscript (c : Cells T) (index : Int) : Except Failure T :=
  if index < 0 ∨ index ≥ (c.size : Int) then .error .outOfRange
  else dataAfter index.toNat c.head

/-! ## Table: a chain of columns -/

/-- A `Table<T>`: name, column count, the chain of columns starting at `headCells` and the
cell width. -/
structure Table (T : Type) where
  name : String
  size : Int
  headCells : List (Cells T)
  xSize : Int
  deriving DecidableEq

/-- Constructor `Table()`.  It leaves `xSize` uninitialised: the value is a parameter. -/
def Table.new (xSize : Int) : Table T := ⟨"Table Name", 0, [], xSize⟩

/-- Loop of `AddCells`: walk while `cur->pNext != nullptr`, then link the new column.  On
the empty chain the new column becomes the head. -/
def linkColumn (col : Cells T) : List (Cells T) → List (Cells T)
  | [] => [col]
  | c :: rest => c :: linkColumn col rest

/-- Method `Table<T>::AddCells`. -/
def Table.AddCells (t : Table T) (name : String) : Table T :=
  { t with headCells := linkColumn (Cells.new name) t.headCells, size := t.size + 1 }

/-- Guarded traversal `for (i = 0; i < index && cur != nullptr; i++) cur = cur->pNext`:
the column reached, or `none` when `cur` ends up null. -/
def columnAt : Nat → List (Cells T) → Option (Cells T)
  | _, [] => none
  | 0, c :: _ => some c
  | k + 1, _ :: rest => columnAt k rest

/-- Unguarded traversal `for (i = 0; i < index; i++) cur = cur->pNext` followed by a use of
`cur`. -/
def columnAtUnchecked : Nat → List (Cells T) → Except Failure (Cells T)
  | _, [] => .error .undefinedBehaviour
  | 0, c :: _ => .ok c
  | k + 1, _ :: rest => columnAtUnchecked k rest

/-- The chain of columns after the column at position `steps` was modified in place. -/
def storeColumn (col : Cells T) : Nat → List (Cells T) → List (Cells T)
  | _, [] => []
  | 0, _ :: rest => col :: rest
  | k + 1, c :: rest => c :: storeColumn col k rest

/-- Method `Table<T>::AddInCells_PushBack`. -/
def Table.AddInCells_PushBack (t : Table T) (index : Int) (data : T) : Outcome (Table T) :=
  if index < 0 ∨ index ≥ t.size then ⟨t, some .outOfRange⟩
  else
    match columnAt index.toNat t.headCells with
    | none => ⟨t, some .columnNotFound⟩
    | some cur =>
      ⟨{ t with headCells := storeColumn (cur.PushBack data) index.toNat t.headCells }, none⟩

/-- Method `Table<T>::AddInCells_PushIndex`. -/
def Table.AddInCells_PushIndex (t : Table T) (indexCells indexInCells : Int) (data : T) :
    Outcome (Table T) :=
  match columnAt indexCells.toNat t.headCells with
  | none => ⟨t, none⟩
  | some cur =>
    let r := cur.PushIndex indexInCells data
    ⟨{ t with headCells := storeColumn r.state indexCells.toNat t.headCells }, r.failure⟩

/-- Method `Table<T>::DeleteAdd_Back`. -/
def Table.DeleteAdd_Back (t : Table T) (index : Int) : Outcome (Table T) :=
  match columnAtUnchecked index.toNat t.headCells with
  | .error f => ⟨t, some f⟩
  | .ok cur => ⟨{ t with headCells := storeColumn cur.DeleteBack index.toNat t.headCells }, none⟩

/-- Method `Table<T>::DeleteAdd_Index`. -/
def Table.DeleteAdd_Index (t : Table T) (indexCells indexElement : Int) : Outcome (Table T) :=
  if indexCells < 0 ∨ indexCells ≥ t.size then ⟨t, some .outOfRange⟩
  else
    match columnAt indexCells.toNat t.headCells with
    | none => ⟨t, some .columnNotFound⟩
    | some cur =>
      if indexElement < 0 ∨ indexElement ≥ cur.GetSize then ⟨t, some .outOfRange⟩
      else
        let r := cur.DeleteIndex indexElement
        ⟨{ t with headCells := storeColumn r.state indexCells.toNat t.headCells }, r.failure⟩

/-- Method `Table<T>::SetXSize`. -/
def Table.SetXSize (t : Table T) (xSize : Int) : Table T := { t with xSize := xSize }

/-- Method `Table<T>::GetNameCells`. -/
def Table.GetNameCells (t : Table T) (index : Int) : Except Failure String :=
  if index < 0 ∨ index ≥ t.size then .error .outOfRange
  else
    match columnAtUnchecked index.toNat t.headCells with
    | .ok cur => .ok cur.GetName
    | .error f => .error f

/-- Method `Table<T>::GetData`, read through the returned reference. -/
def Table.GetData (t : Table T) (indexT indexC : Int) : Except Failure T :=
  if indexT < 0 ∨ indexT ≥ t.size then .error .outOfRange
  else
    match columnAt indexT.toNat t.headCells with
    | none => .error .columnNotFound
    | some cur => cur.subscript indexC

/-! ## Printing

Text written to `std::cout` is kept line by line: a line is the text written before a
newline.  The stream is in its initial state (fill character blank).  `std::to_string` for
the element type is the parameter `render`.  `size_t` has 64 bits. -/

/-- Text written by `PrintTable`: the completed lines, and the failure that ended the call
early, if any (the text of an unfinished line is dropped). -/
structure Printed where
  lines : List String
  failure : Option Failure
  deriving DecidableEq

/-- Number of values of a `size_t`. -/
def SIZE_RANGE : Int := 18446744073709551616

/-- Conversion of an integer value to `int`. -/
def toInt (x : Int) : Int :=
  (x + 2147483648) % 4294967296 - 2147483648

/-- Method `std::string::length`: a number of `char`s. -/
def strLength (s : String) : Int := (s.utf8ByteSize : Int)

/-- A loop writing the same text `n` times. -/
def repeatText : Nat → String → String
  | 0, _ => ""
  | k + 1, s => s ++ repeatText k s

/-- The text written by `std::setw(width) << std::left << s`: `s`, then blanks up to the
width. -/
def setwLeft (width : Int) (s : String) : String :=
  s ++ repeatText (width - strLength s).toNat " "

/-- Method `Table<T>::PrintLine`, without the final newline. -/
def Table.PrintLine (t : Table T) (columns : Int) : String :=
  "|" ++ repeatText columns.toNat (repeatText t.xSize.toNat "-" ++ "|")

/-- The title line of `PrintTable`. -/
def Table.titleLine (t : Table T) : String :=
  let totalColumns := t.size + 1
  let totalWidth := totalColumns * t.xSize + (totalColumns + 1)
  let titlePadding := toInt (((totalWidth - strLength t.name - 2) % SIZE_RANGE) / 2)
  "|" ++ setwLeft titlePadding "" ++ t.name ++
    setwLeft (toInt ((totalWidth - strLength t.name - titlePadding - 2) % SIZE_RANGE)) "" ++ "|"

/-- The loop over `i` of the label row of `PrintTable`. -/
def Table.labelCells (t : Table T) : List Nat → String
  | [] => ""
  | i :: rest => setwLeft t.xSize ("Col " ++ Nat.repr i) ++ "|" ++ t.labelCells rest

/-- The loop over `i` of the column-name row of `PrintTable`. -/
def Table.nameCells (t : Table T) : List Nat → Except Failure String
  | [] => .ok ""
  | i :: rest =>
    match t.GetNameCells (i : Int) with
    | .error f => .error f
    | .ok name =>
      match t.nameCells rest with
      | .error f => .error f
      | .ok cells => .ok (setwLeft t.xSize name ++ "|" ++ cells)

/-- The loop of `PrintTable` that computes `maxRows`. -/
def maxRows (maxSoFar : Int) : List (Cells T) → Int
  | [] => maxSoFar
  | cur :: rest => maxRows (if cur.GetSize > maxSoFar then cur.GetSize else maxSoFar) rest

/-- The loop over the columns inside a data row of `PrintTable`. -/
def rowCells (render : T → String) (xSize : Int) (row : Nat) :
    List (Cells T) → Except Failure String
  | [] => .ok ""
  | cur :: rest =>
    match (if (row : Int) < cur.GetSize then
        (match cur.subscript (row : Int) with
          | .ok x => Except.ok (render x)
          | .error f => Except.error f)
      else Except.ok " ") with
    | .error f => .error f
    | .ok value =>
      match rowCells render xSize row rest with
      | .error f => .error f
      | .ok cells => .ok ("|" ++ setwLeft xSize value ++ cells)

/-- The loop over `row` of `PrintTable`. -/
def Table.dataRows (render : T → String) (t : Table T) : List Nat → Printed
  | [] => ⟨[], none⟩
  | row :: rest =>
    match rowCells render t.xSize row t.headCells with
    | .error f => ⟨[], some f⟩
    | .ok cells =>
      ⟨("|" ++ setwLeft t.xSize ("Row " ++ Nat.repr row) ++ cells ++ "|") ::
          t.PrintLine (t.size + 1) :: (t.dataRows render rest).lines,
        (t.dataRows render rest).failure⟩

/-- Method `Table<T>::PrintTable`. -/
def Table.PrintTable (render : T → String) (t : Table T) : Printed :=
  if t.size = 0 then ⟨["❌ Таблица пуста!"], none⟩
  else
    let totalColumns := t.size + 1
    let header := [t.titleLine, t.PrintLine totalColumns,
      "|" ++ setwLeft t.xSize " " ++ "|" ++ t.labelCells (List.range t.size.toNat),
      t.PrintLine totalColumns]
    match t.nameCells (List.range t.size.toNat) with
    | .error f => ⟨header, some f⟩
    | .ok names =>
      ⟨header ++ ["|" ++ setwLeft t.xSize " " ++ "|" ++ names, t.PrintLine totalColumns] ++
          (t.dataRows render (List.range (maxRows 0 t.headCells).toNat)).lines,
        (t.dataRows render (List.range (maxRows 0 t.headCells).toNat)).failure⟩

/-! ### The layout in the words of the specification -/

/-- Border line as the specification words it: `n + 1` runs of `w` characters `-`, each run
framed by `|`. -/
def borderSpec (n w : Nat) : List Char :=
  '|' :: (List.replicate (n + 1) (List.replicate w '-' ++ ['|'])).flatten

/-- Title line as the specification words it: the table name with `left` blanks before it
and `right` blanks after it, framed by `|`. -/
def titleSpec (name : String) (left right : Nat) : List Char :=
  '|' :: (List.replicate left ' ' ++ name.data ++ List.replicate right ' ' ++ ['|'])

/-- A cell as the specification words it: the text, then blanks up to the cell width `w`,
the width being counted in `char`s. -/
def padSpec (w : Nat) (s : String) : String :=
  ⟨s.data ++ List.replicate (w - s.utf8ByteSize) ' '⟩

/-- Texts written one after the other. -/
def concatTexts : List String → String
  | [] => ""
  | s :: rest => s ++ concatTexts rest

/-- Label row as the specification words it: a blank leading cell, then `Col i` for each
column index `i` from 0. -/
def labelRowSpec (t : Table T) : String :=
  "|" ++ padSpec t.xSize.toNat " " ++ "|" ++
    concatTexts ((List.range t.headCells.length).map fun i =>
      padSpec t.xSize.toNat ("Col " ++ Nat.repr i) ++ "|")

/-- Column-name row as the specification words it: a blank leading cell, then the display
name of each column. -/
def nameRowSpec (t : Table T) : String :=
  "|" ++ padSpec t.xSize.toNat " " ++ "|" ++
    concatTexts (t.headCells.map fun col => padSpec t.xSize.toNat col.name ++ "|")

/-- What a column contributes to data row `r` as the specification words it: the text of its
element at index `r` when it has more than `r` elements, a single blank otherwise. -/
def cellText (render : T → String) (col : Cells T) (r : Nat) : String :=
  match col.head[r]? with
  | some x => render x
  | none => " "

/-- Data row `r` as the specification words it: the leading cell `Row r`, then the cell of
each column. -/
def dataRowSpec (render : T → String) (t : Table T) (r : Nat) : String :=
  "|" ++ padSpec t.xSize.toNat ("Row " ++ Nat.repr r) ++
    concatTexts (t.headCells.map fun col =>
      "|" ++ padSpec t.xSize.toNat (cellText render col r)) ++
    "|"

/-! ## Sequences of calls -/

/-- A call of one of the mutating methods of a column. -/
inductive Call (T : Type) where
  | pushBack (data : T)
  | pushHead (data : T)
  | pushIndex (index : Int) (data : T)
  | deleteBack
  | deleteHead
  | deleteIndex (index : Int)

/-- The column after one call; a call that throws is caught by the caller. -/
def Call.apply (c : Cells T) : Call T → Cells T
  | .pushBack data => c.PushBack data
  | .pushHead data => c.PushHead data
  | .pushIndex index data => (c.PushIndex index data).state
  | .deleteBack => c.DeleteBack
  | .deleteHead => c.DeleteHead
  | .deleteIndex index => (c.DeleteIndex index).state

/-- The column after a sequence of calls, first call first. -/
def Cells.run (c : Cells T) (calls : List (Call T)) : Cells T := calls.foldl Call.apply c

/-- A call of one of the mutating methods of a table. -/
inductive TableCall (T : Type) where
  | addCells (name : String)
  | pushBack (index : Int) (data : T)
  | pushIndex (indexCells indexInCells : Int) (data : T)
  | deleteBack (index : Int)
  | deleteIndex (indexCells indexElement : Int)
  | setXSize (xSize : Int)

/-- The table after one call; a call that throws is caught by the caller. -/
def TableCall.apply (t : Table T) : TableCall T → Table T
  | .addCells name => t.AddCells name
  | .pushBack index data => (t.AddInCells_PushBack index data).state
  | .pushIndex indexCells indexInCells data =>
    (t.AddInCells_PushIndex indexCells indexInCells data).state
  | .deleteBack index => (t.DeleteAdd_Back index).state
  | .deleteIndex indexCells indexElement => (t.DeleteAdd_Index indexCells indexElement).state
  | .setXSize xSize => t.SetXSize xSize

/-- The table after a sequence of calls, first call first. -/
def Table.run (t : Table T) (calls : List (TableCall T)) : Table T :=
  calls.foldl TableCall.apply t

/-- The column built by `PushBack(1); PushBack(2); DeleteBack()` on a new column. -/
def twoPushedOneDeleted : Cells Int :=
  (Cells.new "c").run [.pushBack 1, .pushBack 2, .deleteBack]

/-- The column built by `PushBack(1); PushBack(2)` and three calls of `DeleteBack()` on a
new column. -/
def twoPushedThreeDeleted : Cells Int :=
  (Cells.new "c").run [.pushBack 1, .pushBack 2, .deleteBack, .deleteBack, .deleteBack]

/-- The table with columns "ID" and "Name" after `AddInCells_PushBack(0, 1)`,
`AddInCells_PushBack(0, 2)` and `DeleteAdd_Back(0)`. -/
def tableAfterDeleteBack : Table Int :=
  (Table.new 10).run
    [.addCells "ID", .addCells "Name", .pushBack 0 1, .pushBack 0 2, .deleteBack 0]

/-- The table after `AddCells` was called with each of the names, in order. -/
def Table.addAll (t : Table T) (names : List String) : Table T :=
  names.foldl Table.AddCells t

/-- The table with columns "ID" and "Name" after `AddInCells_PushBack(0, 1)`. -/
def sampleTable : Table Int :=
  (Table.new 10).run [.addCells "ID", .addCells "Name", .pushBack 0 1]

/-- The column built by `PushBack(1); PushBack(2); DeleteBack(); DeleteBack()` on a new
column. -/
def twoPushedTwoDeleted : Cells Int :=
  (Cells.new "c").run [.pushBack 1, .pushBack 2, .deleteBack, .deleteBack]

/-- Frame condition of a call addressed to column `c` of a table: the column count, the
table name, the cell width, the number of chained columns and every column name are the same
in `t2` as in `t1`, and so is every column at a position other than `c`. -/
def SameExceptColumn (c : Int) (t1 t2 : Table T) : Prop :=
  t2.size = t1.size ∧ t2.name = t1.name ∧ t2.xSize = t1.xSize ∧
  t2.headCells.length = t1.headCells.length ∧
  t2.headCells.map Cells.name = t1.headCells.map Cells.name ∧
  ∀ j : Nat, (j : Int) ≠ c → t2.headCells[j]? = t1.headCells[j]?

/-! ## Facts about the traversals -/

theorem uintToInt_of_le {n : Nat} (h : n ≤ INT_MAX) : uintToInt n = (n : Int) := by
  have h1 : n % UINT_RANGE = n := Nat.mod_eq_of_lt (by unfold INT_MAX at h; unfold UINT_RANGE; omega)
  unfold uintToInt
  rw [h1, if_pos h]

theorem uintInc_of_lt {n : Nat} (h : n < INT_MAX) : uintInc n = n + 1 := by
  unfold uintInc
  exact Nat.mod_eq_of_lt (by unfold INT_MAX at h; unfold UINT_RANGE; omega)

theorem linkAtEnd_eq_append (data : T) (l : List T) : linkAtEnd data l = l ++ [data] := by
  induction l with
  | nil => rfl
  | cons x rest ih => simp [linkAtEnd, ih]

theorem cutAfterLast_eq_self : ∀ l : List T, cutAfterLast l = l
  | [] => rfl
  | [_] => rfl
  | x :: y :: rest => by
    have ih := cutAfterLast_eq_self (y :: rest)
    simp [cutAfterLast, ih]

theorem spliceAfter_of_lt (data : T) :
    ∀ (k : Nat) (l : List T), k < l.length →
      spliceAfter data k l = .ok (l.take (k + 1) ++ data :: l.drop (k + 1))
  | _, [], h => by simp at h
  | 0, x :: rest, _ => by simp [spliceAfter]
  | k + 1, x :: rest, h => by
    have ih := spliceAfter_of_lt data k rest (by simpa using h)
    simp [spliceAfter, ih]

theorem spliceAfter_ne_outOfRange (data : T) :
    ∀ (k : Nat) (l : List T), spliceAfter data k l ≠ .error .outOfRange
  | 0, [] => by simp [spliceAfter]
  | _ + 1, [] => by simp [spliceAfter]
  | 0, _ :: _ => by simp [spliceAfter]
  | k + 1, x :: rest => by
    have ih := spliceAfter_ne_outOfRange data k rest
    unfold spliceAfter
    cases h : spliceAfter data k rest with
    | ok chain => simp
    | error f =>
      rw [h] at ih
      intro hf
      apply ih
      simpa using hf

theorem dataAfter_of_lt :
    ∀ (k : Nat) (l : List T) (h : k < l.length), dataAfter k l = .ok (l.get ⟨k, h⟩)
  | _, [], h => by simp at h
  | 0, _ :: _, _ => rfl
  | k + 1, _ :: rest, h => by
    have ih := dataAfter_of_lt k rest (by simpa using h)
    simp [dataAfter, ih]

theorem dataAfter_of_getElem? :
    ∀ (k : Nat) (l : List T) (x : T), l[k]? = some x → dataAfter k l = .ok x
  | _, [], _, h => by simp at h
  | 0, _ :: _, _, h => by simp at h; subst h; rfl
  | k + 1, _ :: rest, x, h => by
    have ih := dataAfter_of_getElem? k rest x (by simpa using h)
    simp [dataAfter, ih]

theorem PushHead_eq (c : Cells T) (data : T) :
    c.PushHead data = { c with head := data :: c.head, size := uintInc c.size } := by
  unfold Cells.PushHead
  cases h : c.head <;> rfl

theorem PushBack_eq (c : Cells T) (data : T) :
    c.PushBack data = { c with head := c.head ++ [data], size := uintInc c.size } := by
  unfold Cells.PushBack
  cases h : c.head with
  | nil => rfl
  | cons x rest => simp [linkAtEnd_eq_append]

/-- On a chain of two or more nodes `DeleteBack` leaves every node in place and still
decrements the count. -/
theorem DeleteBack_of_two_le (c : Cells T) (h : 2 ≤ c.head.length) :
    c.DeleteBack = { c with size := uintDec c.size } := by
  unfold Cells.DeleteBack
  rcases hc : c.head with _ | ⟨x, _ | ⟨y, rest⟩⟩
  · rw [hc] at h; simp at h
  · rw [hc] at h; simp at h
  · simp only [cutAfterLast_eq_self]

/-- An insertion position that passes the range check and lies within the chain: the call
succeeds and links the new node at that position. -/
theorem PushIndex_of_le (c : Cells T) (k : Nat) (v : T)
    (hsize : k ≤ c.size) (hchain : k ≤ c.head.length) :
    c.PushIndex (k : Int) v =
      ⟨{ c with head := c.head.take k ++ v :: c.head.drop k, size := uintInc c.size }, none⟩ := by
  have hcheck : ¬ ((k : Int) < 0 ∨ (k : Int) > (c.size : Int)) := by omega
  unfold Cells.PushIndex
  rw [if_neg hcheck]
  cases k with
  | zero => simp [PushHead_eq]
  | succ k =>
    have hne : ¬ (((k + 1 : Nat) : Int) = 0) := by omega
    have hsteps : (((k + 1 : Nat) : Int) - 1).toNat = k := by omega
    rw [if_neg hne, hsteps, spliceAfter_of_lt v k c.head (by omega)]

/-- When the count is at most the number of chained elements and fits an `int`, indexed
access fails with `OutOfRange` exactly outside `[0, GetSize())` and otherwise returns the
element at that position. -/
theorem subscript_of_count_le (c : Cells T) (index : Int)
    (hcount : c.size ≤ c.head.length) (hint : c.size ≤ INT_MAX) :
    (c.subscript index = .error .outOfRange ↔ index < 0 ∨ index ≥ c.GetSize) ∧
      (¬ (index < 0 ∨ index ≥ c.GetSize) → ∃ x, c.head[index.toNat]? = some x ∧
        c.subscript index = .ok x) := by
  have hget : c.GetSize = (c.size : Int) := uintToInt_of_le hint
  rw [hget]
  unfold Cells.subscript
  by_cases hcheck : index < 0 ∨ index ≥ (c.size : Int)
  · simp [hcheck]
  · have hlt : index.toNat < c.head.length := by omega
    rw [if_neg hcheck, dataAfter_of_lt index.toNat c.head hlt]
    refine ⟨by simp [hcheck], fun _ => ⟨c.head.get ⟨index.toNat, hlt⟩, ?_, rfl⟩⟩
    simp [List.getElem?_eq_getElem hlt]

theorem linkColumn_eq_append (col : Cells T) (l : List (Cells T)) :
    linkColumn col l = l ++ [col] := by
  induction l with
  | nil => rfl
  | cons x rest ih => simp [linkColumn, ih]

theorem columnAt_eq_getElem? : ∀ (k : Nat) (l : List (Cells T)), columnAt k l = l[k]?
  | _, [] => by cases ‹Nat› <;> simp [columnAt]
  | 0, _ :: _ => by simp [columnAt]
  | k + 1, _ :: rest => by simp [columnAt, columnAt_eq_getElem? k rest]

theorem columnAtUnchecked_of_getElem? :
    ∀ (k : Nat) (l : List (Cells T)) (col : Cells T),
      l[k]? = some col → columnAtUnchecked k l = .ok col
  | _, [], _, h => by simp at h
  | 0, _ :: _, _, h => by simp at h; subst h; rfl
  | k + 1, _ :: rest, col, h => by
    have ih := columnAtUnchecked_of_getElem? k rest col (by simpa using h)
    simp [columnAtUnchecked, ih]

theorem storeColumn_eq_set (col : Cells T) :
    ∀ (k : Nat) (l : List (Cells T)), storeColumn col k l = l.set k col
  | _, [] => by cases ‹Nat› <;> simp [storeColumn]
  | 0, _ :: _ => by simp [storeColumn]
  | k + 1, _ :: rest => by simp [storeColumn, storeColumn_eq_set col k rest]

theorem addAll_eq (names : List String) :
    ∀ t : Table T, t.addAll names =
      { t with headCells := t.headCells ++ names.map Cells.new,
               size := t.size + (names.length : Int) } := by
  induction names with
  | nil => intro t; simp [Table.addAll]
  | cons n rest ih =>
    intro t
    have hstep : t.addAll (n :: rest) = (t.AddCells n).addAll rest := rfl
    rw [hstep, ih]
    simp only [Table.AddCells, linkColumn_eq_append, List.append_assoc, List.singleton_append,
      List.map_cons, List.length_cons]
    congr 1
    push_cast
    omega

/-- With a valid column index whose column has a count equal to its number of elements,
`AddInCells_PushBack` stores the value as the last element of that column. -/
theorem AddInCells_PushBack_last_of_count_eq (t : Table T) (c : Int) (v : T) (col : Cells T)
    (h0 : 0 ≤ c) (hc : c < t.size) (hcol : t.headCells[c.toNat]? = some col)
    (hcount : col.size = col.head.length) (hroom : col.head.length < INT_MAX) :
    (t.AddInCells_PushBack c v).failure = none ∧
    (t.AddInCells_PushBack c v).state.headCells[c.toNat]? = some (col.PushBack v) ∧
    (col.PushBack v).head = col.head ++ [v] ∧
    (col.PushBack v).GetSize = (col.head.length : Int) + 1 ∧
    (t.AddInCells_PushBack c v).state.GetData c (col.head.length : Int) = .ok v := by
  have hcheck : ¬ (c < 0 ∨ c ≥ t.size) := by omega
  have hlt : c.toNat < t.headCells.length := by
    by_contra hge
    rw [List.getElem?_eq_none (by omega)] at hcol
    exact Option.noConfusion hcol
  have hsize : (col.PushBack v).size = col.head.length + 1 := by
    rw [PushBack_eq, hcount]; exact uintInc_of_lt hroom
  have hstate : (t.AddInCells_PushBack c v).state.headCells[c.toNat]? =
      some (col.PushBack v) := by
    unfold Table.AddInCells_PushBack
    rw [if_neg hcheck, columnAt_eq_getElem?, hcol]
    simp [storeColumn_eq_set, hlt]
  have hstatesize : (t.AddInCells_PushBack c v).state.size = t.size := by
    unfold Table.AddInCells_PushBack
    rw [if_neg hcheck, columnAt_eq_getElem?, hcol]
  refine ⟨?_, hstate, by rw [PushBack_eq], ?_, ?_⟩
  · unfold Table.AddInCells_PushBack
    rw [if_neg hcheck, columnAt_eq_getElem?, hcol]
  · unfold Cells.GetSize
    rw [hsize, uintToInt_of_le (by omega)]
    push_cast
    rfl
  · unfold Table.GetData
    rw [hstatesize, if_neg hcheck, columnAt_eq_getElem?, hstate]
    unfold Cells.subscript
    simp only [hsize, Int.toNat_ofNat]
    have hin : ¬ ((col.head.length : Int) < 0 ∨
        (col.head.length : Int) ≥ ((col.head.length + 1 : Nat) : Int)) := by omega
    rw [if_neg hin]
    apply dataAfter_of_getElem?
    rw [PushBack_eq]
    simp

theorem uintToInt_le (n : Nat) : uintToInt n ≤ (n : Int) := by
  have h := Nat.mod_le n UINT_RANGE
  unfold uintToInt
  unfold UINT_RANGE at *
  split <;> omega

theorem uintToInt_uintDec {n : Nat} (h : 0 < uintToInt n) :
    uintToInt (uintDec n) = uintToInt n - 1 := by
  unfold uintToInt uintDec UINT_RANGE INT_MAX at *
  split at h <;> split <;> omega

theorem uintDec_uintInc {n : Nat} (h : n < UINT_RANGE) : uintDec (uintInc n) = n := by
  unfold uintDec uintInc UINT_RANGE at *
  omega

theorem unlinkAfter_of_lt :
    ∀ (k : Nat) (l : List T), k + 1 < l.length →
      unlinkAfter k l = .ok (l.take (k + 1) ++ l.drop (k + 2))
  | _, [], h => by simp at h
  | 0, [_], h => by simp at h
  | 0, x :: _ :: rest, _ => by simp [unlinkAfter]
  | k + 1, x :: rest, h => by
    have ih := unlinkAfter_of_lt k rest (by simpa using h)
    simp [unlinkAfter, ih]

/-- A position inside the chain: `DeleteIndex` succeeds and unlinks the node at that
position. -/
theorem DeleteIndex_of_lt (c : Cells T) (k : Nat) (hk : k < c.head.length) :
    c.DeleteIndex (k : Int) =
      ⟨{ c with head := c.head.take k ++ c.head.drop (k + 1), size := uintDec c.size }, none⟩ := by
  unfold Cells.DeleteIndex
  cases k with
  | zero =>
    unfold Cells.DeleteHead
    rcases hc : c.head with _ | ⟨x, rest⟩
    · rw [hc] at hk; simp at hk
    · simp
  | succ k =>
    have hne : ¬ (((k + 1 : Nat) : Int) = 0) := by omega
    have hsteps : (((k + 1 : Nat) : Int) - 1).toNat = k := by omega
    rw [if_neg hne, hsteps, unlinkAfter_of_lt k c.head (by omega)]

theorem releaseAll_eq_nil : ∀ l : List T, releaseAll l = []
  | [] => rfl
  | _ :: rest => by simp [releaseAll, releaseAll_eq_nil rest]

theorem PushBack_name (c : Cells T) (v : T) : (c.PushBack v).name = c.name := by
  rw [PushBack_eq]

theorem PushIndex_name (c : Cells T) (index : Int) (v : T) :
    (c.PushIndex index v).state.name = c.name := by
  unfold Cells.PushIndex
  split
  · rfl
  · split
    · rw [PushHead_eq]
    · split <;> rfl

theorem DeleteIndex_name (c : Cells T) (index : Int) :
    (c.DeleteIndex index).state.name = c.name := by
  unfold Cells.DeleteIndex
  split
  · unfold Cells.DeleteHead
    split <;> rfl
  · split <;> rfl

theorem storeColumn_length (col : Cells T) :
    ∀ (k : Nat) (l : List (Cells T)), (storeColumn col k l).length = l.length := by
  intro k l
  rw [storeColumn_eq_set, List.length_set]

theorem storeColumn_getElem?_ne (col : Cells T) (k j : Nat) (l : List (Cells T))
    (h : j ≠ k) : (storeColumn col k l)[j]? = l[j]? := by
  rw [storeColumn_eq_set, List.getElem?_set_ne (Ne.symm h)]

theorem storeColumn_map_name (col old : Cells T) :
    ∀ (k : Nat) (l : List (Cells T)), columnAt k l = some old → col.name = old.name →
      (storeColumn col k l).map Cells.name = l.map Cells.name
  | _, [], h, _ => by cases ‹Nat› <;> simp [columnAt] at h
  | 0, _ :: _, h, hn => by
    simp only [columnAt, Option.some.injEq] at h
    subst h
    simp [storeColumn, hn]
  | k + 1, _ :: rest, h, hn => by
    have ih := storeColumn_map_name col old k rest (by simpa [columnAt] using h) hn
    simp [storeColumn, ih]

/-- Storing, at position `c`, a column with the name of the column found there changes
nothing else in the table. -/
theorem sameExceptColumn_store (t : Table T) (c : Int) (h0 : 0 ≤ c) (col old : Cells T)
    (hold : columnAt c.toNat t.headCells = some old) (hname : col.name = old.name) :
    SameExceptColumn c t { t with headCells := storeColumn col c.toNat t.headCells } := by
  refine ⟨rfl, rfl, rfl, storeColumn_length col _ _, storeColumn_map_name col old _ _ hold hname,
    ?_⟩
  intro j hj
  exact storeColumn_getElem?_ne col c.toNat j t.headCells (by omega)

theorem sameExceptColumn_refl (c : Int) (t : Table T) : SameExceptColumn c t t :=
  ⟨rfl, rfl, rfl, rfl, rfl, fun _ _ => rfl⟩

/-- A column index at or beyond the end of the chain of columns: `AddInCells_PushIndex`
returns without failure and without any change. -/
theorem AddInCells_PushIndex_of_length_le (t : Table T) (c e : Int) (v : T)
    (h : (t.headCells.length : Int) ≤ c) : t.AddInCells_PushIndex c e v = ⟨t, none⟩ := by
  unfold Table.AddInCells_PushIndex
  rw [columnAt_eq_getElem?, List.getElem?_eq_none (by omega)]

/-! ## Facts about printing -/

theorem repeatText_length (s : String) :
    ∀ k : Nat, (repeatText k s).length = k * s.length
  | 0 => by simp [repeatText]
  | k + 1 => by
    rw [repeatText, String.length_append, repeatText_length s k]
    ring

theorem repeatText_data (s : String) :
    ∀ k : Nat, (repeatText k s).data = (List.replicate k s.data).flatten
  | 0 => by simp [repeatText]
  | k + 1 => by
    rw [repeatText, String.data_append, repeatText_data s k]
    simp [List.replicate_succ]

theorem PrintLine_length (t : Table T) (columns : Int) :
    (t.PrintLine columns).length = 1 + columns.toNat * (t.xSize.toNat + 1) := by
  unfold Table.PrintLine
  rw [String.length_append, repeatText_length, String.length_append, repeatText_length]
  have h1 : "|".length = 1 := rfl
  have h2 : "-".length = 1 := rfl
  rw [h1, h2, Nat.mul_one]

theorem PrintLine_data (t : Table T) (n : Nat) :
    (t.PrintLine ((n : Int) + 1)).data = borderSpec n t.xSize.toNat := by
  have hn : ((n : Int) + 1).toNat = n + 1 := by omega
  unfold Table.PrintLine borderSpec
  rw [String.data_append, repeatText_data, String.data_append, repeatText_data, hn]
  have h1 : "|".data = ['|'] := rfl
  have h2 : "-".data = ['-'] := rfl
  rw [h1, h2]
  simp

/-- The border line written for a table of non-negative column count is the border line of
the specification. -/
theorem PrintLine_eq_borderSpec (t : Table T) (h : 0 ≤ t.size) :
    t.PrintLine (t.size + 1) = ⟨borderSpec t.size.toNat t.xSize.toNat⟩ := by
  have hn : t.PrintLine (t.size + 1) = t.PrintLine ((t.size.toNat : Int) + 1) := by
    congr 1
    omega
  rw [hn]
  exact String.ext (PrintLine_data t t.size.toNat)

theorem flatten_replicate_singleton (c : Char) :
    ∀ k : Nat, (List.replicate k [c]).flatten = List.replicate k c
  | 0 => rfl
  | k + 1 => by
    rw [List.replicate_succ, List.flatten_cons, flatten_replicate_singleton c k,
      List.replicate_succ]
    rfl

/-- The text written under `std::setw` with left adjustment is the padded cell of the
specification. -/
theorem setwLeft_eq_padSpec (w : Int) (s : String) : setwLeft w s = padSpec w.toNat s := by
  have hk : (w - strLength s).toNat = w.toNat - s.utf8ByteSize := by
    unfold strLength
    omega
  have hblank : " ".data = [' '] := rfl
  unfold setwLeft padSpec
  apply String.ext
  rw [String.data_append, repeatText_data, hblank, flatten_replicate_singleton, hk]

/-- The title line is the table name between blanks, framed by `|`; when the name and the
frame fit the total width, the blanks centre the name within that width. -/
theorem titleLine_eq_titleSpec (t : Table T) :
    ∃ left right : Nat, t.titleLine = ⟨titleSpec t.name left right⟩ ∧
      (strLength t.name + 2 ≤ (t.size + 1) * t.xSize + (t.size + 2) →
        (t.size + 1) * t.xSize + (t.size + 2) ≤ (INT_MAX : Int) →
        (left : Int) = ((t.size + 1) * t.xSize + (t.size + 2) - strLength t.name - 2) / 2 ∧
        (left : Int) + (right : Int) =
          (t.size + 1) * t.xSize + (t.size + 2) - strLength t.name - 2) := by
  refine ⟨(toInt ((((t.size + 1) * t.xSize + (t.size + 1 + 1) - strLength t.name - 2)
      % SIZE_RANGE) / 2)).toNat,
    (toInt (((t.size + 1) * t.xSize + (t.size + 1 + 1) - strLength t.name -
      toInt ((((t.size + 1) * t.xSize + (t.size + 1 + 1) - strLength t.name - 2)
        % SIZE_RANGE) / 2) - 2) % SIZE_RANGE)).toNat, ?_, ?_⟩
  · have hbar : "|".data = ['|'] := rfl
    have hempty : "".utf8ByteSize = 0 := rfl
    unfold Table.titleLine titleSpec
    simp only [setwLeft_eq_padSpec]
    unfold padSpec
    apply String.ext
    simp only [String.data_append, hbar, hempty, Nat.sub_zero]
    simp
  · intro hfit hint
    generalize (t.size + 1) * t.xSize = prod at hfit hint ⊢
    have hlen : 0 ≤ strLength t.name := by unfold strLength; omega
    generalize strLength t.name = len at hfit hlen ⊢
    unfold toInt SIZE_RANGE
    unfold INT_MAX at hint
    omega

/-- The lines written by the loop over the rows come in pairs: each line at an odd position
is the border line. -/
theorem dataRows_odd_lines (render : T → String) (t : Table T) :
    ∀ (rows : List Nat) (k : Nat), 2 * k + 1 < (t.dataRows render rows).lines.length →
      (t.dataRows render rows).lines[2 * k + 1]? = some (t.PrintLine (t.size + 1))
  | [], k, h => by simp [Table.dataRows] at h
  | row :: rest, k, h => by
    unfold Table.dataRows at h ⊢
    cases hcells : rowCells render t.xSize row t.headCells with
    | error f => rw [hcells] at h; simp at h
    | ok cells =>
      rw [hcells] at h
      simp only at h ⊢
      cases k with
      | zero => simp
      | succ k =>
        have hidx : 2 * (k + 1) + 1 = (2 * k + 1) + 1 + 1 := by omega
        rw [hidx] at h ⊢
        rw [List.getElem?_cons_succ, List.getElem?_cons_succ]
        exact dataRows_odd_lines render t rest k (by simpa using h)

/-- Every line at an odd position of the text written by `PrintTable` for a table with a
non-zero column count is the border line. -/
theorem PrintTable_odd_lines (render : T → String) (t : Table T) (hsize : t.size ≠ 0) :
    ∀ k : Nat, 2 * k + 1 < (t.PrintTable render).lines.length →
      (t.PrintTable render).lines[2 * k + 1]? = some (t.PrintLine (t.size + 1)) := by
  intro k h
  unfold Table.PrintTable at h ⊢
  rw [if_neg hsize] at h ⊢
  cases hnames : t.nameCells (List.range t.size.toNat) with
  | error f =>
    rw [hnames] at h
    simp only at h ⊢
    rcases k with _ | _ | k
    · simp
    · simp
    · simp at h
      omega
  | ok names =>
    rw [hnames] at h
    simp only at h ⊢
    rcases k with _ | _ | _ | k
    · simp
    · simp
    · simp
    · have hidx : 2 * (k + 1 + 1 + 1) + 1 = (2 * k + 1) + 1 + 1 + 1 + 1 + 1 + 1 := by omega
      rw [hidx] at h ⊢
      simp only [List.cons_append, List.nil_append, List.getElem?_cons_succ]
      apply dataRows_odd_lines
      simpa using h

theorem PrintTable_length_ge (render : T → String) (t : Table T) (hsize : t.size ≠ 0) :
    4 ≤ (t.PrintTable render).lines.length := by
  unfold Table.PrintTable
  rw [if_neg hsize]
  cases hnames : t.nameCells (List.range t.size.toNat) with
  | error f => simp
  | ok names => simp

theorem labelCells_eq (t : Table T) :
    ∀ idxs : List Nat, t.labelCells idxs =
      concatTexts (idxs.map fun i => setwLeft t.xSize ("Col " ++ Nat.repr i) ++ "|")
  | [] => rfl
  | i :: rest => by
    rw [Table.labelCells, labelCells_eq t rest]
    simp [concatTexts, String.append_assoc]

theorem GetNameCells_of_lt (t : Table T) (i : Nat) (col : Cells T)
    (hi : (i : Int) < t.size) (hcol : t.headCells[i]? = some col) :
    t.GetNameCells (i : Int) = .ok col.name := by
  have hcheck : ¬ ((i : Int) < 0 ∨ (i : Int) ≥ t.size) := by omega
  unfold Table.GetNameCells
  rw [if_neg hcheck, Int.toNat_ofNat, columnAtUnchecked_of_getElem? i _ col hcol]
  rfl

theorem nameCells_eq (t : Table T) :
    ∀ idxs : List Nat, (∀ i ∈ idxs, (i : Int) < t.size ∧ i < t.headCells.length) →
      t.nameCells idxs = .ok (concatTexts (idxs.map fun i =>
        setwLeft t.xSize ((t.headCells[i]?.map Cells.name).getD "") ++ "|"))
  | [], _ => rfl
  | i :: rest, h => by
    have hi := h i (List.mem_cons_self i rest)
    have hcol : t.headCells[i]? = some (t.headCells.get ⟨i, hi.2⟩) :=
      List.getElem?_eq_getElem hi.2
    have ih := nameCells_eq t rest (fun j hj => h j (List.mem_cons_of_mem i hj))
    rw [Table.nameCells, GetNameCells_of_lt t i _ hi.1 hcol, ih]
    simp [concatTexts, String.append_assoc, hcol]

theorem map_range_getElem? {α β : Type} (g : Option α → β) :
    ∀ l : List α, (List.range l.length).map (fun i => g l[i]?) = l.map (fun a => g (some a))
  | [] => rfl
  | x :: rest => by
    rw [List.length_cons, List.range_succ_eq_map, List.map_cons, List.map_map, List.map_cons,
      ← map_range_getElem? g rest]
    simp [Function.comp_def]

/-- With a non-zero column count equal to the number of chained columns, `PrintTable` writes
the six header lines and then the lines of the loop over the rows. -/
theorem PrintTable_eq (render : T → String) (t : Table T)
    (h1 : 1 ≤ t.size) (hcols : t.size = (t.headCells.length : Int)) :
    t.PrintTable render =
      ⟨[t.titleLine, t.PrintLine (t.size + 1), labelRowSpec t, t.PrintLine (t.size + 1),
          nameRowSpec t, t.PrintLine (t.size + 1)] ++
          (t.dataRows render (List.range (maxRows 0 t.headCells).toNat)).lines,
        (t.dataRows render (List.range (maxRows 0 t.headCells).toNat)).failure⟩ := by
  have hsize : t.size ≠ 0 := by omega
  have hn : t.size.toNat = t.headCells.length := by omega
  have hnames := nameCells_eq t (List.range t.headCells.length) (by
    intro i hi
    have := List.mem_range.mp hi
    omega)
  have hmap := map_range_getElem?
    (fun o : Option (Cells T) => setwLeft t.xSize ((o.map Cells.name).getD "") ++ "|")
    t.headCells
  simp only [Option.map_some', Option.getD_some] at hmap
  rw [hmap] at hnames
  unfold Table.PrintTable
  rw [if_neg hsize, hn, hnames, labelCells_eq]
  simp only [setwLeft_eq_padSpec]
  rfl

theorem maxRows_ge_init : ∀ (cols : List (Cells T)) (m : Int), m ≤ maxRows m cols
  | [], _ => le_refl _
  | cur :: rest, m => by
    have ih := maxRows_ge_init rest (if cur.GetSize > m then cur.GetSize else m)
    unfold maxRows
    by_cases hgt : cur.GetSize > m
    · rw [if_pos hgt] at ih ⊢; omega
    · rw [if_neg hgt] at ih ⊢; omega

theorem maxRows_ge :
    ∀ (cols : List (Cells T)) (m : Int), ∀ col ∈ cols, col.GetSize ≤ maxRows m cols
  | [], _, _, h => by simp at h
  | cur :: rest, m, col, h => by
    unfold maxRows
    rcases List.mem_cons.mp h with rfl | hrest
    · have ih := maxRows_ge_init rest (if col.GetSize > m then col.GetSize else m)
      by_cases hgt : col.GetSize > m
      · rw [if_pos hgt] at ih ⊢; omega
      · rw [if_neg hgt] at ih ⊢; omega
    · exact maxRows_ge rest _ col hrest

theorem maxRows_attained :
    ∀ (cols : List (Cells T)) (m : Int),
      maxRows m cols = m ∨ ∃ col ∈ cols, col.GetSize = maxRows m cols
  | [], _ => Or.inl rfl
  | cur :: rest, m => by
    unfold maxRows
    rcases maxRows_attained rest (if cur.GetSize > m then cur.GetSize else m) with h | h
    · rw [h]
      split
      · exact Or.inr ⟨cur, List.mem_cons_self _ _, rfl⟩
      · exact Or.inl rfl
    · obtain ⟨col, hmem, hcol⟩ := h
      exact Or.inr ⟨col, List.mem_cons_of_mem _ hmem, hcol⟩

/-- On columns whose count equals their number of elements no cell of a data row fails, and
each cell is the text the specification names. -/
theorem rowCells_eq (render : T → String) (w : Int) (r : Nat) :
    ∀ cols : List (Cells T),
      (∀ col ∈ cols, col.size = col.head.length ∧ col.head.length ≤ INT_MAX) →
      rowCells render w r cols =
        .ok (concatTexts (cols.map fun col => "|" ++ setwLeft w (cellText render col r)))
  | [], _ => rfl
  | cur :: rest, h => by
    have hcur := h cur (List.mem_cons_self cur rest)
    have ih := rowCells_eq render w r rest (fun col hcol => h col (List.mem_cons_of_mem cur hcol))
    have hget : cur.GetSize = (cur.head.length : Int) := by
      unfold Cells.GetSize
      rw [hcur.1]
      exact uintToInt_of_le hcur.2
    unfold rowCells
    rw [ih, hget]
    by_cases hr : r < cur.head.length
    · have hlt : (r : Int) < (cur.head.length : Int) := by omega
      have hcheck : ¬ ((r : Int) < 0 ∨ (r : Int) ≥ (cur.size : Int)) := by omega
      have hsub : cur.subscript (r : Int) = .ok (cur.head.get ⟨r, hr⟩) := by
        unfold Cells.subscript
        rw [if_neg hcheck, Int.toNat_ofNat, dataAfter_of_lt r cur.head hr]
      have hcell : cellText render cur r = render (cur.head.get ⟨r, hr⟩) := by
        unfold cellText
        rw [List.getElem?_eq_getElem hr]
        rfl
      rw [if_pos hlt, hsub]
      simp [concatTexts, hcell]
    · have hge : ¬ ((r : Int) < (cur.head.length : Int)) := by omega
      have hcell : cellText render cur r = " " := by
        unfold cellText
        rw [List.getElem?_eq_none (by omega)]
      rw [if_neg hge]
      simp [concatTexts, hcell]

/-- On columns whose count equals their number of elements the loop over the rows never
fails and writes, for each row, the data row and then the border line. -/
theorem dataRows_eq (render : T → String) (t : Table T)
    (hcount : ∀ col ∈ t.headCells, col.size = col.head.length ∧ col.head.length ≤ INT_MAX) :
    ∀ rows : List Nat,
      (t.dataRows render rows).failure = none ∧
      (t.dataRows render rows).lines.length = 2 * rows.length ∧
      ∀ (k r : Nat), rows[k]? = some r →
        (t.dataRows render rows).lines[2 * k]? = some (dataRowSpec render t r) ∧
        (t.dataRows render rows).lines[2 * k + 1]? = some (t.PrintLine (t.size + 1))
  | [] => ⟨rfl, rfl, fun k r h => by simp at h⟩
  | row :: rest => by
    obtain ⟨ihf, ihl, ihk⟩ := dataRows_eq render t hcount rest
    unfold Table.dataRows
    rw [rowCells_eq render t.xSize row t.headCells hcount]
    refine ⟨ihf, ?_, ?_⟩
    · simp only [List.length_cons, ihl]
      omega
    · intro k r hk
      cases k with
      | zero =>
        simp only [List.getElem?_cons_zero, Option.some.injEq] at hk
        subst hk
        exact ⟨by simp [dataRowSpec, setwLeft_eq_padSpec], by simp⟩
      | succ k =>
        have hk2 : rest[k]? = some r := by simpa using hk
        have h0 : 2 * (k + 1) = 2 * k + 1 + 1 := by omega
        have h1 : 2 * (k + 1) + 1 = (2 * k + 1) + 1 + 1 := by omega
        rw [h1, h0]
        simp only [List.getElem?_cons_succ]
        exact ihk k r hk2

/-- The first line written by the loop over the rows, when there is one, is the data row
labelled `Row 0`. -/
theorem dataRows_first_line (render : T → String) (t : Table T) (m : Nat) (line : String)
    (h : (t.dataRows render (List.range m)).lines[0]? = some line) :
    ∃ cells : String,
      line = "|" ++ padSpec t.xSize.toNat ("Row " ++ Nat.repr 0) ++ cells ++ "|" := by
  cases m with
  | zero => simp [Table.dataRows] at h
  | succ m =>
    rw [List.range_succ_eq_map] at h
    unfold Table.dataRows at h
    cases hcells : rowCells render t.xSize 0 t.headCells with
    | error f => rw [hcells] at h; simp at h
    | ok cells =>
      rw [hcells] at h
      simp only [List.getElem?_cons_zero, Option.some.injEq] at h
      exact ⟨cells, by rw [← h, setwLeft_eq_padSpec]⟩

/-! ## The claims -/

/-- C1: after `PushBack(1); PushBack(2); DeleteBack()` on a new column `GetSize()` is 1
while two elements are still reachable from the first node: the count is not the number of
chained elements. -/
theorem count_differs_from_chain_after_DeleteBack :
    twoPushedOneDeleted.GetSize = 1 ∧ twoPushedOneDeleted.head.length = 2 ∧
      twoPushedOneDeleted.head = [1, 2] := by
  decide

/-- C2: `DeleteBack` on the column holding 1, 2 with count 2 removes no element: the column
still holds 1, 2 and only the count drops to 1. -/
theorem DeleteBack_keeps_last_element :
    (⟨[1, 2], "c", 2⟩ : Cells Int).DeleteBack = ⟨[1, 2], "c", 1⟩ ∧
      (⟨[1, 2], "c", 2⟩ : Cells Int).DeleteBack.head ≠ [1] := by
  decide

/-- C3: on a column whose count equals its number of elements `n` (with `n + 1` still an
`int`), `PushIndex(i, v)` with `0 <= i <= n` succeeds; the new chain is the old one with `v`
inserted at position `i` (earlier elements in place, later ones one position further);
`GetSize()` becomes `n + 1` and `[i]` returns `v`. -/
theorem PushIndex_inserts_at_index (c : Cells T) (i : Int) (v : T)
    (hcount : c.size = c.head.length) (hroom : c.head.length < INT_MAX)
    (h0 : 0 ≤ i) (hi : i ≤ (c.head.length : Int)) :
    (c.PushIndex i v).failure = none ∧
    (c.PushIndex i v).state.head = c.head.take i.toNat ++ v :: c.head.drop i.toNat ∧
    (∀ k : Nat, k < i.toNat → (c.PushIndex i v).state.head[k]? = c.head[k]?) ∧
    (∀ k : Nat, i.toNat ≤ k → (c.PushIndex i v).state.head[k + 1]? = c.head[k]?) ∧
    (c.PushIndex i v).state.head.length = c.head.length + 1 ∧
    (c.PushIndex i v).state.size = c.head.length + 1 ∧
    (c.PushIndex i v).state.GetSize = (c.head.length : Int) + 1 ∧
    (c.PushIndex i v).state.name = c.name ∧
    (c.PushIndex i v).state.subscript i = .ok v := by
  obtain ⟨k, rfl⟩ := Int.eq_ofNat_of_zero_le h0
  have hk : k ≤ c.head.length := by omega
  have hlen : (c.head.take k).length = k := by simp [hk]
  rw [PushIndex_of_le c k v (by omega) hk]
  have hsize : uintInc c.size = c.head.length + 1 := by
    rw [hcount]; exact uintInc_of_lt hroom
  refine ⟨rfl, rfl, ?_, ?_, ?_, hsize, ?_, rfl, ?_⟩
  · intro j hj
    have hj2 : j < k := by simpa using hj
    simp only [Int.toNat_ofNat]
    rw [List.getElem?_append_left (by omega), List.getElem?_take_of_lt hj2]
  · intro j hj
    have hj2 : k ≤ j := by simpa using hj
    simp only [Int.toNat_ofNat]
    rw [List.getElem?_append_right (by omega), hlen]
    have hidx : j + 1 - k = (j - k) + 1 := by omega
    rw [hidx, List.getElem?_cons_succ, List.getElem?_drop]
    congr 1
    omega
  · simp only [Int.toNat_ofNat, List.length_append, List.length_cons, List.length_drop, hlen]
    omega
  · unfold Cells.GetSize
    simp only [hsize]
    rw [uintToInt_of_le (by omega)]
    push_cast
    rfl
  · unfold Cells.subscript
    simp only [hsize, Int.toNat_ofNat]
    have hcheck : ¬ ((k : Int) < 0 ∨ (k : Int) ≥ ((c.head.length + 1 : Nat) : Int)) := by omega
    rw [if_neg hcheck]
    apply dataAfter_of_getElem?
    rw [List.getElem?_append_right (by omega), hlen]
    simp

/-- Instance of `PushIndex_inserts_at_index`: inserting 7 at position 1 of 10, 20, 30. -/
theorem PushIndex_inserts_at_index_witness :
    ((⟨[10, 20, 30], "c", 3⟩ : Cells Int).PushIndex 1 7).failure = none ∧
    ((⟨[10, 20, 30], "c", 3⟩ : Cells Int).PushIndex 1 7).state.head = [10, 7, 20, 30] ∧
    ((⟨[10, 20, 30], "c", 3⟩ : Cells Int).PushIndex 1 7).state.GetSize = 4 ∧
    ((⟨[10, 20, 30], "c", 3⟩ : Cells Int).PushIndex 1 7).state.subscript 1 = .ok 7 := by
  have h := PushIndex_inserts_at_index (⟨[10, 20, 30], "c", 3⟩ : Cells Int) 1 7
    (by decide) (by decide) (by decide) (by decide)
  exact ⟨h.1, h.2.1, h.2.2.2.2.2.2.1, h.2.2.2.2.2.2.2.2⟩

/-- C4: after `PushBack(1); PushBack(2)` and three calls of `DeleteBack()` both elements
are still chained and the count has wrapped to 4294967295, so `GetSize()` is -1; `[0]` and
`[1]` return 1 and 2 although 0 and 1 are not below `GetSize()`, and `[2]` walks off the end
of the chain instead of failing with `OutOfRange`. -/
theorem subscript_after_count_underflow :
    twoPushedThreeDeleted.head = [1, 2] ∧ twoPushedThreeDeleted.size = 4294967295 ∧
    twoPushedThreeDeleted.GetSize = -1 ∧
    twoPushedThreeDeleted.subscript 0 = .ok 1 ∧
    twoPushedThreeDeleted.subscript 1 = .ok 2 ∧
    twoPushedThreeDeleted.subscript 2 = .error .undefinedBehaviour :=
  ⟨by decide, by decide, by decide, rfl, rfl, rfl⟩

/-- C5: for every column of count `n`, `PushIndex(index, v)` fails with the out-of-range
condition if and only if `index < 0` or `index > n`, and a failing call leaves the column,
hence its elements and `GetSize()`, as it was. -/
theorem PushIndex_outOfRange_iff (c : Cells T) (index : Int) (v : T) :
    ((c.PushIndex index v).failure = some .outOfRange ↔
      index < 0 ∨ index > (c.size : Int)) ∧
    ((c.PushIndex index v).failure ≠ none →
      (c.PushIndex index v).state = c ∧
      (c.PushIndex index v).state.head = c.head ∧
      (c.PushIndex index v).state.GetSize = c.GetSize) := by
  unfold Cells.PushIndex
  by_cases hcheck : index < 0 ∨ index > (c.size : Int)
  · simp [hcheck]
  · rw [if_neg hcheck]
    by_cases hzero : index = 0
    · simp [hzero, hcheck]
    · rw [if_neg hzero]
      cases hs : spliceAfter v (index - 1).toNat c.head with
      | ok chain => simp [hcheck]
      | error f =>
        have hne := spliceAfter_ne_outOfRange v (index - 1).toNat c.head
        rw [hs] at hne
        have hf : f ≠ .outOfRange := fun h => hne (by rw [h])
        simp [hcheck, hf]

/-- Instance of `PushIndex_outOfRange_iff` on the column 10, 20 with index 3. -/
theorem PushIndex_outOfRange_iff_witness :
    ((⟨[10, 20], "c", 2⟩ : Cells Int).PushIndex 3 7).failure = some .outOfRange ∧
    ((⟨[10, 20], "c", 2⟩ : Cells Int).PushIndex 3 7).state = ⟨[10, 20], "c", 2⟩ :=
  ⟨(PushIndex_outOfRange_iff (⟨[10, 20], "c", 2⟩ : Cells Int) 3 7).1.mpr (by decide),
   ((PushIndex_outOfRange_iff (⟨[10, 20], "c", 2⟩ : Cells Int) 3 7).2 (by decide)).1⟩

/-- C6: on a column whose count equals its number of elements, `PushIndex(0, v)` leaves the
same column as `PushHead(v)` and `PushIndex(GetSize(), v)` the same column as
`PushBack(v)`, both without failure. -/
theorem PushIndex_at_ends (c : Cells T) (v : T)
    (hcount : c.size = c.head.length) (hint : c.head.length ≤ INT_MAX) :
    c.PushIndex 0 v = ⟨c.PushHead v, none⟩ ∧
    c.PushIndex c.GetSize v = ⟨c.PushBack v, none⟩ := by
  constructor
  · have h := PushIndex_of_le c 0 v (Nat.zero_le _) (Nat.zero_le _)
    simpa [PushHead_eq] using h
  · have hget : c.GetSize = ((c.head.length : Nat) : Int) := by
      unfold Cells.GetSize
      rw [hcount]
      exact uintToInt_of_le hint
    rw [hget, PushIndex_of_le c c.head.length v (by omega) (Nat.le_refl _), PushBack_eq]
    simp

/-- Instance of `PushIndex_at_ends` on the column 10, 20. -/
theorem PushIndex_at_ends_witness :
    (⟨[10, 20], "c", 2⟩ : Cells Int).PushIndex 0 7 = ⟨⟨[7, 10, 20], "c", 3⟩, none⟩ ∧
    (⟨[10, 20], "c", 2⟩ : Cells Int).PushIndex 2 7 = ⟨⟨[10, 20, 7], "c", 3⟩, none⟩ := by
  have h := PushIndex_at_ends (⟨[10, 20], "c", 2⟩ : Cells Int) 7 (by decide) (by decide)
  exact ⟨h.1, h.2⟩

/-- C7: calling `AddCells` with the names `s_0 .. s_(n-1)` in that order on a new table
gives column count `n` and a chain of `n` columns; `GetNameCells(i)` returns `s_i` for every
`i` in `[0, n)` and fails with `OutOfRange` for every other `i`; every column is empty. -/
theorem AddCells_sequence (xSize : Int) (names : List String) :
    ((Table.new xSize : Table T).addAll names).size = (names.length : Int) ∧
    ((Table.new xSize : Table T).addAll names).headCells.length = names.length ∧
    (∀ (i : Nat) (h : i < names.length),
      ((Table.new xSize : Table T).addAll names).GetNameCells (i : Int) =
        .ok (names.get ⟨i, h⟩)) ∧
    (∀ i : Int, i < 0 ∨ i ≥ (names.length : Int) →
      ((Table.new xSize : Table T).addAll names).GetNameCells i = .error .outOfRange) ∧
    (∀ col ∈ ((Table.new xSize : Table T).addAll names).headCells,
      col.head = [] ∧ col.GetSize = 0) := by
  rw [addAll_eq]
  simp only [Table.new, List.nil_append, zero_add, List.length_map]
  refine ⟨trivial, trivial, ?_, ?_, ?_⟩
  · intro i h
    unfold Table.GetNameCells
    have hcheck : ¬ ((i : Int) < 0 ∨ (i : Int) ≥ (names.length : Int)) := by omega
    simp only [if_neg hcheck, Int.toNat_ofNat]
    rw [columnAtUnchecked_of_getElem? i _ (Cells.new (names.get ⟨i, h⟩))]
    · rfl
    · simp [List.getElem?_eq_getElem h]
  · intro i hi
    unfold Table.GetNameCells
    simp only [if_pos hi]
  · intro col hcol
    obtain ⟨n, _, rfl⟩ := List.mem_map.mp hcol
    exact ⟨rfl, rfl⟩

/-- Instance of `AddCells_sequence` for the names "ID" and "Name". -/
theorem AddCells_sequence_witness :
    ((Table.new 10 : Table Int).addAll ["ID", "Name"]).size = 2 ∧
    ((Table.new 10 : Table Int).addAll ["ID", "Name"]).GetNameCells 1 = .ok "Name" ∧
    ((Table.new 10 : Table Int).addAll ["ID", "Name"]).GetNameCells 2 = .error .outOfRange :=
  have h := @AddCells_sequence Int 10 ["ID", "Name"]
  ⟨h.1, h.2.2.1 1 (by decide), h.2.2.2.1 2 (by decide)⟩

/-- C8: on the table with columns "ID" and "Name" reached by `AddInCells_PushBack(0, 1)`,
`AddInCells_PushBack(0, 2)` and `DeleteAdd_Back(0)`, the call `AddInCells_PushBack(0, 3)`
succeeds and column 0 then has `GetSize()` 2 and chain 1, 2, 3, so `GetData(0, 1)` returns 2
and not the appended 3. -/
theorem AddInCells_PushBack_not_last_after_DeleteAdd_Back :
    (tableAfterDeleteBack.AddInCells_PushBack 0 3).failure = none ∧
    ((tableAfterDeleteBack.AddInCells_PushBack 0 3).state.headCells.map Cells.head)
      = [[1, 2, 3], []] ∧
    ((tableAfterDeleteBack.AddInCells_PushBack 0 3).state.headCells.map Cells.GetSize)
      = [2, 0] ∧
    (tableAfterDeleteBack.AddInCells_PushBack 0 3).state.GetData 0 1 = .ok 2 ∧
    (tableAfterDeleteBack.AddInCells_PushBack 0 3).state.GetData 0 1 ≠ .ok 3 :=
  ⟨by decide, by decide, by decide, rfl, fun h => by cases h⟩

/-- C9: for every table of column count `n` and every column index that is negative or at
least `n`, `AddInCells_PushBack` fails with `OutOfRange` and leaves the table, hence every
column, as it was. -/
theorem AddInCells_PushBack_outOfRange (t : Table T) (index : Int) (v : T)
    (h : index < 0 ∨ index ≥ t.size) :
    t.AddInCells_PushBack index v = ⟨t, some .outOfRange⟩ := by
  unfold Table.AddInCells_PushBack
  rw [if_pos h]

/-- Instance of `AddInCells_PushBack_outOfRange` on a table of two columns, with the column
indices 2 and -1. -/
theorem AddInCells_PushBack_outOfRange_witness :
    (sampleTable.AddInCells_PushBack 2 5 = ⟨sampleTable, some .outOfRange⟩) ∧
    (sampleTable.AddInCells_PushBack (-1) 5 = ⟨sampleTable, some .outOfRange⟩) :=
  ⟨AddInCells_PushBack_outOfRange sampleTable 2 5 (by decide),
   AddInCells_PushBack_outOfRange sampleTable (-1) 5 (by decide)⟩

/-- C10: `DeleteAdd_Index(c, e)` fails with `OutOfRange` and leaves the table as it was
when `c` is outside `[0, count)`, whatever `e` is, and also when `c` is a valid column index
and `e` is negative or at least the `GetSize()` of column `c`. -/
theorem DeleteAdd_Index_outOfRange (t : Table T) (c e : Int) :
    ((c < 0 ∨ c ≥ t.size) → t.DeleteAdd_Index c e = ⟨t, some .outOfRange⟩) ∧
    (∀ col : Cells T, 0 ≤ c → c < t.size → t.headCells[c.toNat]? = some col →
      (e < 0 ∨ e ≥ col.GetSize) → t.DeleteAdd_Index c e = ⟨t, some .outOfRange⟩) := by
  constructor
  · intro h
    unfold Table.DeleteAdd_Index
    rw [if_pos h]
  · intro col h0 hc hcol he
    have hcheck : ¬ (c < 0 ∨ c ≥ t.size) := by omega
    unfold Table.DeleteAdd_Index
    rw [if_neg hcheck, columnAt_eq_getElem?, hcol]
    simp only [if_pos he]

/-- Instance of `DeleteAdd_Index_outOfRange` on a table of two columns: column index 2, and
element index 1 in column 0, which holds one element. -/
theorem DeleteAdd_Index_outOfRange_witness :
    (sampleTable.DeleteAdd_Index 2 0 = ⟨sampleTable, some .outOfRange⟩) ∧
    (sampleTable.DeleteAdd_Index 0 1 = ⟨sampleTable, some .outOfRange⟩) :=
  ⟨(DeleteAdd_Index_outOfRange sampleTable 2 0).1 (by decide),
   (DeleteAdd_Index_outOfRange sampleTable 0 1).2 ⟨[1], "ID", 1⟩
     (by decide) (by decide) (by decide) (by decide)⟩

/-- C11: with a valid column index `c` whose column has a count equal to its number of
elements and `0 <= e < GetSize()` of that column, `DeleteAdd_Index(c, e)` succeeds and
column `c` loses exactly the element at position `e`: earlier elements stay in place, later
ones move one position earlier, name kept, and `GetSize()` drops by one. -/
theorem DeleteAdd_Index_removes_element (t : Table T) (c e : Int) (col : Cells T)
    (h0 : 0 ≤ c) (hc : c < t.size) (hcol : t.headCells[c.toNat]? = some col)
    (hcount : col.size = col.head.length) (he0 : 0 ≤ e) (he : e < col.GetSize) :
    (t.DeleteAdd_Index c e).failure = none ∧
    (t.DeleteAdd_Index c e).state.headCells[c.toNat]? = some (col.DeleteIndex e).state ∧
    (col.DeleteIndex e).state.head = col.head.take e.toNat ++ col.head.drop (e.toNat + 1) ∧
    (∀ k : Nat, k < e.toNat → (col.DeleteIndex e).state.head[k]? = col.head[k]?) ∧
    (∀ k : Nat, e.toNat ≤ k → (col.DeleteIndex e).state.head[k]? = col.head[k + 1]?) ∧
    (col.DeleteIndex e).state.head.length + 1 = col.head.length ∧
    (col.DeleteIndex e).state.GetSize = col.GetSize - 1 ∧
    (col.DeleteIndex e).state.name = col.name := by
  have hcheck : ¬ (c < 0 ∨ c ≥ t.size) := by omega
  have hecheck : ¬ (e < 0 ∨ e ≥ col.GetSize) := by omega
  have hlt : c.toNat < t.headCells.length := by
    by_contra hge
    rw [List.getElem?_eq_none (by omega)] at hcol
    exact Option.noConfusion hcol
  have hle := uintToInt_le col.size
  obtain ⟨k, rfl⟩ := Int.eq_ofNat_of_zero_le he0
  have hk : k < col.head.length := by
    unfold Cells.GetSize at he
    omega
  have hlen : (col.head.take k).length = k := by simp; omega
  have hdel := DeleteIndex_of_lt col k hk
  refine ⟨?_, ?_, ?_, ?_, ?_, ?_, ?_, ?_⟩
  · unfold Table.DeleteAdd_Index
    rw [if_neg hcheck, columnAt_eq_getElem?, hcol]
    simp only [if_neg hecheck, hdel]
  · unfold Table.DeleteAdd_Index
    rw [if_neg hcheck, columnAt_eq_getElem?, hcol]
    simp only [if_neg hecheck]
    simp [storeColumn_eq_set, hlt]
  · rw [hdel]; rfl
  · intro j hj
    have hj2 : j < k := by simpa using hj
    rw [hdel]
    simp only
    rw [List.getElem?_append_left (by omega), List.getElem?_take_of_lt hj2]
  · intro j hj
    have hj2 : k ≤ j := by simpa using hj
    rw [hdel]
    simp only
    rw [List.getElem?_append_right (by omega), hlen, List.getElem?_drop]
    congr 1
    omega
  · rw [hdel]
    simp only [List.length_append, List.length_drop, hlen]
    omega
  · rw [hdel]
    unfold Cells.GetSize at he ⊢
    exact uintToInt_uintDec (by omega)
  · rw [hdel]

/-- Instance of `DeleteAdd_Index_removes_element`: removing position 1 of the column
10, 20, 30 of a one-column table. -/
theorem DeleteAdd_Index_removes_element_witness :
    ((⟨"t", 1, [⟨[10, 20, 30], "c", 3⟩], 10⟩ : Table Int).DeleteAdd_Index 0 1).failure = none ∧
    ((⟨"t", 1, [⟨[10, 20, 30], "c", 3⟩], 10⟩ : Table Int).DeleteAdd_Index 0 1).state.headCells[0]?
      = some ((⟨[10, 20, 30], "c", 3⟩ : Cells Int).DeleteIndex 1).state ∧
    ((⟨[10, 20, 30], "c", 3⟩ : Cells Int).DeleteIndex 1).state.head = [10, 30] ∧
    ((⟨[10, 20, 30], "c", 3⟩ : Cells Int).DeleteIndex 1).state.GetSize = 2 := by
  have h := DeleteAdd_Index_removes_element (⟨"t", 1, [⟨[10, 20, 30], "c", 3⟩], 10⟩ : Table Int)
    0 1 ⟨[10, 20, 30], "c", 3⟩ (by decide) (by decide) (by decide) (by decide) (by decide)
    (by decide)
  exact ⟨h.1, h.2.1, h.2.2.1, h.2.2.2.2.2.2.1⟩

/-- C12: on the table with columns "ID" (holding 1) and "Name", `AddInCells_PushIndex` with
the column index -1 does not do nothing: with element index 0 it inserts the value at the
head of column 0, and with element index 5 it fails with `OutOfRange`. -/
theorem AddInCells_PushIndex_negative_column_acts_on_first :
    (sampleTable.headCells.map Cells.head) = [[1], []] ∧
    (sampleTable.AddInCells_PushIndex (-1) 0 9).failure = none ∧
    ((sampleTable.AddInCells_PushIndex (-1) 0 9).state.headCells.map Cells.head) = [[9, 1], []] ∧
    ((sampleTable.AddInCells_PushIndex (-1) 0 9).state.headCells.map Cells.GetSize) = [2, 0] ∧
    (sampleTable.AddInCells_PushIndex (-1) 5 9).failure = some .outOfRange := by
  decide

/-- C13: after `PushBack(1); PushBack(2); DeleteBack(); DeleteBack()` on a new column
`GetSize()` is 0 with both elements still chained; a further `DeleteBack()` or
`DeleteHead()` is then no no-op: the count wraps to 4294967295 and `GetSize()` is -1. -/
theorem count_underflows_when_GetSize_is_zero :
    twoPushedTwoDeleted.GetSize = 0 ∧ twoPushedTwoDeleted.head = [1, 2] ∧
    twoPushedTwoDeleted.DeleteBack.size = 4294967295 ∧
    twoPushedTwoDeleted.DeleteBack.GetSize = -1 ∧
    twoPushedTwoDeleted.DeleteHead.head = [2] ∧
    twoPushedTwoDeleted.DeleteHead.GetSize = -1 := by
  decide

/-- C14: for every column, `Clear()` leaves no element and `GetSize() == 0`, after which
`[0]` fails with `OutOfRange`; a second `Clear()` changes nothing, and the name is kept. -/
theorem Clear_empties (c : Cells T) :
    c.Clear.head = [] ∧ c.Clear.GetSize = 0 ∧ c.Clear.size = 0 ∧
    c.Clear.subscript 0 = .error .outOfRange ∧
    c.Clear.Clear = c.Clear ∧ c.Clear.name = c.name := by
  have hclear : c.Clear = ⟨[], c.name, 0⟩ := by
    unfold Cells.Clear
    rw [releaseAll_eq_nil]
  rw [hclear]
  exact ⟨rfl, rfl, rfl, rfl, rfl, rfl⟩

/-- C18: on a column whose count equals its number of chained elements, for every index
with `1 <= index <= count` each node the traversal of `PushIndex` stands on, up to the
predecessor at position `index - 1`, exists; the traversal ends on a node, so neither a null
dereference nor the `Invalid position` failure occurs and the call succeeds. -/
theorem PushIndex_predecessor_exists (c : Cells T) (index : Int) (v : T)
    (hcount : c.size = c.head.length) (h1 : 1 ≤ index) (hn : index ≤ (c.size : Int)) :
    (∀ k : Nat, k ≤ (index - 1).toNat → ∃ x, c.head[k]? = some x) ∧
    (∃ chain, spliceAfter v (index - 1).toNat c.head = .ok chain) ∧
    (c.PushIndex index v).failure ≠ some .invalidPosition ∧
    (c.PushIndex index v).failure ≠ some .undefinedBehaviour ∧
    (c.PushIndex index v).failure = none := by
  have hlt : (index - 1).toNat < c.head.length := by omega
  have hsplice := spliceAfter_of_lt v (index - 1).toNat c.head hlt
  have hcheck : ¬ (index < 0 ∨ index > (c.size : Int)) := by omega
  have hne : ¬ (index = 0) := by omega
  have hnone : (c.PushIndex index v).failure = none := by
    unfold Cells.PushIndex
    rw [if_neg hcheck, if_neg hne, hsplice]
  refine ⟨?_, ⟨_, hsplice⟩, by simp [hnone], by simp [hnone], hnone⟩
  intro k hk
  exact ⟨c.head.get ⟨k, by omega⟩, List.getElem?_eq_getElem (by omega)⟩

/-- Instance of `PushIndex_predecessor_exists`: index 2 on the column 10, 20. -/
theorem PushIndex_predecessor_exists_witness :
    (∃ chain, spliceAfter 7 ((2 : Int) - 1).toNat (⟨[10, 20], "c", 2⟩ : Cells Int).head
      = .ok chain) ∧
    ((⟨[10, 20], "c", 2⟩ : Cells Int).PushIndex 2 7).failure = none := by
  have h := PushIndex_predecessor_exists (⟨[10, 20], "c", 2⟩ : Cells Int) 2 7
    (by decide) (by decide) (by decide)
  exact ⟨h.2.1, h.2.2.2.2⟩

/-- C19: for every table and every column index `c >= 0`, the table left by
`AddInCells_PushBack(c, v)`, by `AddInCells_PushIndex(c, e, v)` and by
`DeleteAdd_Index(c, e)`, successful or not, differs from the table before the call in column
`c` only: column count, every column name and every other column are the same. -/
theorem table_calls_change_one_column (t : Table T) (c e : Int) (v : T) (h0 : 0 ≤ c) :
    SameExceptColumn c t (t.AddInCells_PushBack c v).state ∧
    SameExceptColumn c t (t.AddInCells_PushIndex c e v).state ∧
    SameExceptColumn c t (t.DeleteAdd_Index c e).state := by
  refine ⟨?_, ?_, ?_⟩
  · unfold Table.AddInCells_PushBack
    split
    · exact sameExceptColumn_refl c t
    · cases hcol : columnAt c.toNat t.headCells with
      | none => exact sameExceptColumn_refl c t
      | some cur => exact sameExceptColumn_store t c h0 _ cur hcol (PushBack_name cur v)
  · unfold Table.AddInCells_PushIndex
    cases hcol : columnAt c.toNat t.headCells with
    | none => exact sameExceptColumn_refl c t
    | some cur => exact sameExceptColumn_store t c h0 _ cur hcol (PushIndex_name cur e v)
  · unfold Table.DeleteAdd_Index
    split
    · exact sameExceptColumn_refl c t
    · cases hcol : columnAt c.toNat t.headCells with
      | none => exact sameExceptColumn_refl c t
      | some cur =>
        simp only
        split
        · exact sameExceptColumn_refl c t
        · exact sameExceptColumn_store t c h0 _ cur hcol (DeleteIndex_name cur e)

/-- Instance of `table_calls_change_one_column` on the table with columns "ID" and "Name",
addressed to column 0. -/
theorem table_calls_change_one_column_witness :
    SameExceptColumn 0 sampleTable (sampleTable.AddInCells_PushBack 0 5).state ∧
    SameExceptColumn 0 sampleTable (sampleTable.AddInCells_PushIndex 0 1 5).state ∧
    SameExceptColumn 0 sampleTable (sampleTable.DeleteAdd_Index 0 0).state :=
  ⟨(table_calls_change_one_column sampleTable 0 0 5 (by decide)).1,
   (table_calls_change_one_column sampleTable 0 1 5 (by decide)).2.1,
   (table_calls_change_one_column sampleTable 0 0 5 (by decide)).2.2⟩

/-- C20: on a column whose count `n` equals its number of elements, for every `i` with
`0 <= i <= n`, `PushIndex(i, v)` succeeds and the following `DeleteIndex(i)` succeeds and
leaves exactly the column from before the two calls. -/
theorem PushIndex_then_DeleteIndex (c : Cells T) (i : Int) (v : T)
    (hcount : c.size = c.head.length) (huint : c.size < UINT_RANGE)
    (h0 : 0 ≤ i) (hi : i ≤ (c.head.length : Int)) :
    (c.PushIndex i v).failure = none ∧
    (c.PushIndex i v).state.DeleteIndex i = ⟨c, none⟩ ∧
    ((c.PushIndex i v).state.DeleteIndex i).state.head = c.head ∧
    ((c.PushIndex i v).state.DeleteIndex i).state.GetSize = c.GetSize := by
  obtain ⟨k, rfl⟩ := Int.eq_ofNat_of_zero_le h0
  have hk : k ≤ c.head.length := by omega
  have hlen : (c.head.take k).length = k := by simp [hk]
  have hdrop : (c.head.take k).drop (k + 1) = [] :=
    List.drop_eq_nil_of_le (by omega)
  have hhead : (c.head.take k ++ v :: c.head.drop k).take k ++
      (c.head.take k ++ v :: c.head.drop k).drop (k + 1) = c.head := by
    rw [List.take_append_eq_append_take, List.drop_append_eq_append_drop, hlen, hdrop]
    simp only [List.take_take, Nat.min_self, Nat.sub_self, List.take_zero, List.append_nil,
      Nat.add_sub_cancel_left, List.drop_succ_cons, List.drop_zero, List.nil_append,
      List.take_append_drop]
  have hinside : k < (c.head.take k ++ v :: c.head.drop k).length := by
    simp only [List.length_append, List.length_cons, List.length_drop, hlen]
    omega
  have hrestore : (c.PushIndex (k : Int) v).state.DeleteIndex (k : Int) = ⟨c, none⟩ := by
    rw [PushIndex_of_le c k v (by omega) hk, DeleteIndex_of_lt _ k hinside]
    simp only [uintDec_uintInc huint, hhead]
  refine ⟨?_, hrestore, ?_, ?_⟩
  · rw [PushIndex_of_le c k v (by omega) hk]
  · rw [hrestore]
  · rw [hrestore]

/-- Instance of `PushIndex_then_DeleteIndex`: index 1 on the column 10, 20. -/
theorem PushIndex_then_DeleteIndex_witness :
    ((⟨[10, 20], "c", 2⟩ : Cells Int).PushIndex 1 7).failure = none ∧
    ((⟨[10, 20], "c", 2⟩ : Cells Int).PushIndex 1 7).state.DeleteIndex 1
      = ⟨⟨[10, 20], "c", 2⟩, none⟩ := by
  have h := PushIndex_then_DeleteIndex (⟨[10, 20], "c", 2⟩ : Cells Int) 1 7
    (by decide) (by decide) (by decide) (by decide)
  exact ⟨h.1, h.2.1⟩

/-- C15: for a table of column count `n >= 1` and cell width `w >= 0`, every line at an odd
position of the text written by `PrintTable` is the border line written by `PrintLine`, at
least two such lines are written, and that line is `n + 1` runs of `w` characters `-`, each
framed by `|`, of `(n + 1) * w + (n + 2)` characters in all. -/
theorem border_line_width (render : T → String) (t : Table T)
    (h1 : 1 ≤ t.size) (hw : 0 ≤ t.xSize) :
    (∀ k : Nat, 2 * k + 1 < (t.PrintTable render).lines.length →
      (t.PrintTable render).lines[2 * k + 1]? = some (t.PrintLine (t.size + 1))) ∧
    4 ≤ (t.PrintTable render).lines.length ∧
    (t.PrintLine (t.size + 1)).data = borderSpec t.size.toNat t.xSize.toNat ∧
    ((t.PrintLine (t.size + 1)).length : Int) = (t.size + 1) * t.xSize + (t.size + 2) := by
  have hsize : t.size ≠ 0 := by omega
  refine ⟨PrintTable_odd_lines render t hsize, PrintTable_length_ge render t hsize, ?_, ?_⟩
  · have hn : t.size = ((t.size.toNat : Nat) : Int) := by omega
    rw [hn, PrintLine_data, Int.toNat_ofNat]
  · rw [PrintLine_length]
    have hn : ((t.size + 1).toNat : Int) = t.size + 1 := by omega
    have hx : (t.xSize.toNat : Int) = t.xSize := by omega
    push_cast
    rw [hn, hx]
    ring

/-- Instance of `border_line_width` for two columns and cell width 10: 34 characters. -/
theorem border_line_width_witness :
    (sampleTable.PrintTable (fun i : Int => toString i)).lines[1]?
      = some (sampleTable.PrintLine (sampleTable.size + 1)) ∧
    ((sampleTable.PrintLine (sampleTable.size + 1)).length : Int) = 34 := by
  have h := border_line_width (fun i : Int => toString i) sampleTable (by decide) (by decide)
  exact ⟨h.1 0 (by have := h.2.1; omega), h.2.2.2⟩

/-- C16: for the table with columns "ID" and "Name" and cell width 10 the first line written
by `PrintTable` is the title line, not a border line; the border line comes second and the
`Col <i>` label row third. -/
theorem PrintTable_first_line_is_title :
    (sampleTable.PrintTable (fun i : Int => toString i)).lines.take 3 =
      ["|           Table Name           |",
       "|----------|----------|----------|",
       "|          |Col 0     |Col 1     |"] ∧
    (sampleTable.PrintTable (fun i : Int => toString i)).lines.head? ≠
      some (sampleTable.PrintLine (sampleTable.size + 1)) := by
  decide

/-- C16 as amended: for every table with at least one column (count equal to the number of
chained columns) the text written by `PrintTable` starts with the title line (the table name
between blanks, framed by `|`, centred within the total width when it fits), followed by a
border line (`n + 1` runs of `w` characters `-`, each framed by `|`), the `Col <i>` label
row, a border line, the column-name row and a border line; the line after these six, when
there is one, is the data row labelled `Row 0`. -/
theorem PrintTable_header (render : T → String) (t : Table T)
    (h1 : 1 ≤ t.size) (hcols : t.size = (t.headCells.length : Int)) :
    ∃ left right : Nat,
      (t.PrintTable render).lines.take 6 =
        [⟨titleSpec t.name left right⟩, ⟨borderSpec t.size.toNat t.xSize.toNat⟩,
          labelRowSpec t, ⟨borderSpec t.size.toNat t.xSize.toNat⟩,
          nameRowSpec t, ⟨borderSpec t.size.toNat t.xSize.toNat⟩] ∧
      (strLength t.name + 2 ≤ (t.size + 1) * t.xSize + (t.size + 2) →
        (t.size + 1) * t.xSize + (t.size + 2) ≤ (INT_MAX : Int) →
        (left : Int) = ((t.size + 1) * t.xSize + (t.size + 2) - strLength t.name - 2) / 2 ∧
        (left : Int) + (right : Int) =
          (t.size + 1) * t.xSize + (t.size + 2) - strLength t.name - 2) ∧
      (∀ line : String, (t.PrintTable render).lines[6]? = some line →
        ∃ cells : String,
          line = "|" ++ padSpec t.xSize.toNat ("Row " ++ Nat.repr 0) ++ cells ++ "|") := by
  obtain ⟨left, right, htitle, hcentre⟩ := titleLine_eq_titleSpec t
  refine ⟨left, right, ?_, hcentre, ?_⟩
  · rw [PrintTable_eq render t h1 hcols, PrintLine_eq_borderSpec t (by omega), htitle]
    rfl
  · intro line hline
    rw [PrintTable_eq render t h1 hcols] at hline
    exact dataRows_first_line render t _ line (by simpa using hline)

/-- Instance of `PrintTable_header` on the table with columns "ID" and "Name" and cell width
10: the title is centred by 11 blanks on each side within the 34 characters. -/
theorem PrintTable_header_witness :
    (sampleTable.PrintTable (fun i : Int => toString i)).lines.take 6 =
      [⟨titleSpec "Table Name" 11 11⟩, ⟨borderSpec 2 10⟩, labelRowSpec sampleTable,
        ⟨borderSpec 2 10⟩, nameRowSpec sampleTable, ⟨borderSpec 2 10⟩] := by
  obtain ⟨left, right, htake, hcentre, _⟩ :=
    PrintTable_header (fun i : Int => toString i) sampleTable (by decide) (by decide)
  have hvalues := hcentre (by decide) (by decide)
  have hwidth : (sampleTable.size + 1) * sampleTable.xSize + (sampleTable.size + 2)
      - strLength sampleTable.name - 2 = 22 := by decide
  rw [hwidth] at hvalues
  have hleft : left = 11 := by omega
  have hright : right = 11 := by omega
  rw [hleft, hright] at htake
  exact htake

/-- C17: for a table with at least one column (count equal to the number of chained
columns) whose columns each have a count equal to their number of elements, `PrintTable`
ends without failure; after the six header lines it writes, for each row index `r` from 0
to the maximum `GetSize()` of the columns minus one and for no other, the data row and then
the border line (`n + 1` runs of `w` characters `-`, each framed by `|`); in data row `r` each column contributes the text of its element at index
`r` when it has more than `r` elements and a blank otherwise. -/
theorem PrintTable_data_rows (render : T → String) (t : Table T)
    (h1 : 1 ≤ t.size) (hcols : t.size = (t.headCells.length : Int))
    (hcount : ∀ col ∈ t.headCells, col.size = col.head.length ∧ col.head.length ≤ INT_MAX) :
    (t.PrintTable render).failure = none ∧
    (∀ col ∈ t.headCells, col.GetSize ≤ maxRows 0 t.headCells) ∧
    (∃ col ∈ t.headCells, col.GetSize = maxRows 0 t.headCells) ∧
    (t.PrintTable render).lines.length = 6 + 2 * (maxRows 0 t.headCells).toNat ∧
    (∀ r : Nat, (r : Int) < maxRows 0 t.headCells →
      (t.PrintTable render).lines[6 + 2 * r]? = some (dataRowSpec render t r) ∧
      (t.PrintTable render).lines[6 + 2 * r + 1]? =
        some ⟨borderSpec t.size.toNat t.xSize.toNat⟩) := by
  obtain ⟨hfail, hlen, hrows⟩ :=
    dataRows_eq render t hcount (List.range (maxRows 0 t.headCells).toNat)
  rw [← PrintLine_eq_borderSpec t (by omega)]
  rw [PrintTable_eq render t h1 hcols]
  refine ⟨hfail, maxRows_ge t.headCells 0, ?_, ?_, ?_⟩
  · rcases maxRows_attained t.headCells 0 with h | h
    · rcases hc : t.headCells with _ | ⟨col, rest⟩
      · rw [hc] at hcols
        simp at hcols
        omega
      · have hmem : col ∈ t.headCells := by rw [hc]; exact List.mem_cons_self _ _
        have hle := maxRows_ge t.headCells 0 col hmem
        have hcol := hcount col hmem
        have hget : col.GetSize = (col.head.length : Int) := by
          unfold Cells.GetSize
          rw [hcol.1]
          exact uintToInt_of_le hcol.2
        rw [← hc]
        exact ⟨col, hmem, by omega⟩
    · exact h
  · simp only [List.length_append, List.length_cons, List.length_nil, hlen, List.length_range]
  · intro r hr
    have hget : (List.range (maxRows 0 t.headCells).toNat)[r]? = some r :=
      List.getElem?_range (by omega)
    have h := hrows r r hget
    have h6 : ∀ (l : List String) (a b c d e f : String) (i : Nat),
        ([a, b, c, d, e, f] ++ l)[6 + i]? = l[i]? := by
      intro l a b c d e f i
      rw [List.getElem?_append_right (by simp)]
      simp
    have hsucc : 6 + 2 * r + 1 = 6 + (2 * r + 1) := by omega
    rw [hsucc]
    simp only [h6]
    exact h

/-- Instance of `PrintTable_data_rows` on the table with columns "ID" holding 1 and "Name"
holding nothing, cell width 10: no failure, eight lines, the seventh being data row 0 and the
eighth the border line. -/
theorem PrintTable_data_rows_witness :
    (sampleTable.PrintTable (fun i : Int => toString i)).failure = none ∧
    (sampleTable.PrintTable (fun i : Int => toString i)).lines.length
      = 6 + 2 * (maxRows 0 sampleTable.headCells).toNat ∧
    (sampleTable.PrintTable (fun i : Int => toString i)).lines[6]?
      = some (dataRowSpec (fun i : Int => toString i) sampleTable 0) ∧
    (sampleTable.PrintTable (fun i : Int => toString i)).lines[7]?
      = some ⟨borderSpec 2 10⟩ := by
  have h := PrintTable_data_rows (fun i : Int => toString i) sampleTable (by decide) (by decide)
    (by decide)
  exact ⟨h.1, h.2.2.2.1, (h.2.2.2.2 0 (by decide)).1, (h.2.2.2.2 0 (by decide)).2⟩

end Tables
